import Mathlib

/-!
Verification of the GAOS Agentic Planning Coordinator.

Shallow embedding of `scripts/coordinator.py` and `scripts/update_plan_section.py`.
All string processing is modelled on `List Char` (Python `str` is a sequence of
code points, exactly matching Lean `String.data`).  Python regular expressions are
embedded as the recursive scanning functions they denote on the relevant inputs;
each definition carries a comment naming the source line it translates.
Python floats are modelled by exact rationals.  Whitespace and case conversions
are modelled on the ASCII fragment (all roster names, sentinels and keywords in
the source are ASCII or fixed literal characters).
-/

set_option autoImplicit false
set_option maxRecDepth 100000

namespace Coordinator

/-! ### Character helpers (Python `str` operations) -/

/-- Python regex `\s` and `str.strip` whitespace on the ASCII range. -/
def isSpaceChar (c : Char) : Bool :=
  c == ' ' || c == '\t' || c == '\n' || c == '\r' || c == '\x0b' || c == '\x0c'

/-- Python `str.strip()`. -/
def pyStrip (l : List Char) : List Char :=
  ((l.dropWhile isSpaceChar).reverse.dropWhile isSpaceChar).reverse

/-- Python `str.lower()` (ASCII fragment; the compared keywords are ASCII). -/
def pyLower (l : List Char) : List Char :=
  l.map Char.toLower

/-- Whether `pat` is a prefix of `l` (character-wise comparison). -/
def startsWithChars : List Char → List Char → Bool
  | [], _ => true
  | _ :: _, [] => false
  | p :: ps, c :: cs => p == c && startsWithChars ps cs

/-- Python substring test `pat in s`. -/
def occursIn (pat : List Char) : List Char → Bool
  | [] => startsWithChars pat []
  | c :: cs => startsWithChars pat (c :: cs) || occursIn pat cs

/-- Python `content.split(chr(10))`: split at newlines, keeping empty pieces. -/
def splitLines : List Char → List (List Char)
  | [] => [[]]
  | c :: cs =>
    match splitLines cs with
    | [] => [[]]
    | l :: ls => if c == '\n' then [] :: l :: ls else (c :: l) :: ls

/-- Join lines with newlines (Python `chr(10).join(lines)`). -/
def joinNl : List (List Char) → List Char
  | [] => []
  | [l] => l
  | l :: ls => l ++ '\n' :: joinNl ls

/-! ### Status Classifier (`check_engineer_session_status`, coordinator.py lines 470-535) -/

inductive EngineerStatus where
  | idle
  | working
  | completed
  | blocked
  | error
deriving DecidableEq, Repr

/-- The completion sentinel literal from coordinator.py line 488 (the source file
stores the mark as the three code points U+00E2, U+0153, U+2026). -/
def COMPLETION_SENTINEL : String := "âœ… Session completed successfully"

/-- The error sentinel literal from coordinator.py line 490 (code points U+00E2, U+0152). -/
def ERROR_SENTINEL : String := "âŒ Session ended with error"

/-- The timeout sentinel literal from coordinator.py line 492 (code points U+00E2, U+00B0). -/
def TIMEOUT_SENTINEL : String := "â° TIMEOUT"

/-- `content.split(chr(10))[-30:]` joined with newlines and lowercased
(coordinator.py lines 496-497). -/
def recentLower (content : String) : List Char :=
  let ls := splitLines content.data
  pyLower (joinNl (ls.drop (ls.length - 30)))

/-- Embedding of `check_engineer_session_status` (coordinator.py lines 470-535).
The two liveness probes are the `os.kill(session.pid, 0)` test and the
`pgrep -f` name-pattern test; the log file and its text are passed explicitly.
When the log does not exist both branches of the source return WORKING. -/
def check_engineer_session_status (logExists : Bool) (content : String)
    (pidAlive : Bool) (nameMatchAlive : Bool) : EngineerStatus :=
  if logExists = false then
    EngineerStatus.working
  else if occursIn COMPLETION_SENTINEL.data content.data then EngineerStatus.completed
  else if occursIn ERROR_SENTINEL.data content.data then EngineerStatus.error
  else if occursIn TIMEOUT_SENTINEL.data content.data then EngineerStatus.error
  else if occursIn "blocked".data (recentLower content)
      || occursIn "waiting for".data (recentLower content)
      || occursIn "cannot proceed".data (recentLower content) then EngineerStatus.blocked
  else if pidAlive || nameMatchAlive then EngineerStatus.working
  else if 500 < content.length then EngineerStatus.completed
  else EngineerStatus.error

end Coordinator

namespace Coordinator

/-- C2 helper: a concrete log text containing both the completion sentinel and a
blocking keyword in its last lines. -/
def sentinelAndKeywordLog : String :=
  "blocked: waiting for review\nâœ… Session completed successfully"

/-- C2 helper: a concrete log text containing the error sentinel only. -/
def errorSentinelLog : String := "working hard\nâŒ Session ended with error\nmore"

end Coordinator

open Coordinator in
/-- C2: sentinel checks precede both the blocking-keyword check and all liveness
probes: any log text containing the completion sentinel classifies as Completed
(whatever the last 30 lines contain and whatever the liveness probes say), and
any log text containing the error or the timeout sentinel but not the completion
sentinel classifies as Error even when the process is alive. -/
theorem classifier_sentinel_priority
    (content content₂ : String) (a b a₂ b₂ : Bool)
    (h₁ : occursIn COMPLETION_SENTINEL.data content.data = true)
    (h₂ : occursIn COMPLETION_SENTINEL.data content₂.data = false)
    (h₃ : occursIn ERROR_SENTINEL.data content₂.data = true
        ∨ occursIn TIMEOUT_SENTINEL.data content₂.data = true) :
    check_engineer_session_status true content a b = EngineerStatus.completed
    ∧ check_engineer_session_status true content₂ a₂ b₂ = EngineerStatus.error := by
  constructor
  · simp [check_engineer_session_status, h₁]
  · rcases h₃ with h₃ | h₃ <;>
      simp [check_engineer_session_status, h₂, h₃]

open Coordinator in
/-- C2 witness: the sentinel-priority theorem applied to a log holding both the
completion sentinel and blocking keywords, and to a log holding the error
sentinel while the process is alive. -/
theorem classifier_sentinel_priority_witness :
    check_engineer_session_status true sentinelAndKeywordLog false false
        = EngineerStatus.completed
    ∧ check_engineer_session_status true errorSentinelLog true true
        = EngineerStatus.error :=
  classifier_sentinel_priority sentinelAndKeywordLog errorSentinelLog
    false false true true (by decide) (by decide) (Or.inl (by decide))

open Coordinator in
/-- C7 (amended): for a session whose process is not alive (both liveness probes
negative) and whose log exists but contains no sentinel and no blocking keyword
in its last 30 lines, the classifier returns Completed exactly when the length
of the log text in code points (Python `len(content)`, coordinator.py line 528)
exceeds 500, and Error otherwise.  The claim said byte length; the source
measures `len` of the decoded string, which counts code points. -/
theorem classifier_silent_exit (content : String)
    (h₁ : occursIn COMPLETION_SENTINEL.data content.data = false)
    (h₂ : occursIn ERROR_SENTINEL.data content.data = false)
    (h₃ : occursIn TIMEOUT_SENTINEL.data content.data = false)
    (h₄ : occursIn "blocked".data (recentLower content) = false)
    (h₅ : occursIn "waiting for".data (recentLower content) = false)
    (h₆ : occursIn "cannot proceed".data (recentLower content) = false) :
    check_engineer_session_status true content false false
      = (if 500 < content.length then EngineerStatus.completed
         else EngineerStatus.error) := by
  simp [check_engineer_session_status, h₁, h₂, h₃, h₄, h₅, h₆]

namespace Coordinator

/-- C7 helper: 300 two-byte code points, hence 600 UTF-8 bytes but only 300
characters. -/
def longMultibyteLog : String := String.mk (List.replicate 300 'é')

end Coordinator

open Coordinator in
/-- C7 counterexample: a dead session whose log is 600 UTF-8 bytes (exceeding
the 500 threshold the claim states for byte length) yet only 300 code points:
the code classifies it as Error, while the claim as stated requires Completed. -/
theorem classifier_silent_exit_counterexample :
    500 < longMultibyteLog.utf8ByteSize
    ∧ longMultibyteLog.length ≤ 500
    ∧ check_engineer_session_status true longMultibyteLog false false
        = EngineerStatus.error := by
  refine ⟨by decide, by decide, by decide⟩

open Coordinator in
/-- C7 witness: the silent-exit theorem applied to a short log, classifying the
early-dead session as Error. -/
theorem classifier_silent_exit_witness :
    check_engineer_session_status true "short output" false false
      = (if 500 < ("short output" : String).length then EngineerStatus.completed
         else EngineerStatus.error) :=
  classifier_silent_exit "short output" (by decide) (by decide) (by decide)
    (by decide) (by decide) (by decide)

namespace Coordinator

/-! ### Data model (coordinator.py lines 81-99 and the parsed plan dictionary) -/

/-- One checklist item as parsed by `parse_plan_file` (description and
completion flag, lines 201-205). -/
structure Task where
  description : String
  completed : Bool
deriving DecidableEq, Repr

/-- The dictionary returned by `parse_plan_file` (lines 159-165).  The
`engineer_checklists` dictionary is modelled as an insertion-ordered
association list with distinct keys, exactly as a Python dict iterates. -/
structure PlanData where
  title : String
  engineers_needed : List String
  engineer_checklists : List (String × List Task)
deriving DecidableEq, Repr

/-! ### Progress Aggregator (`get_plan_progress`, coordinator.py lines 215-227) -/

/-- Embedding of `get_plan_progress`: iterate over all checklists, counting every
task and the completed ones; `completed / total * 100` with float division
modelled as exact rational division, and `0` when `total = 0`. -/
def get_plan_progress (pd : PlanData) : Nat × Nat × ℚ :=
  let total := (pd.engineer_checklists.map (fun p => p.2.length)).sum
  let completed :=
    (pd.engineer_checklists.map (fun p => (p.2.filter (fun t => t.completed)).length)).sum
  (completed, total, if 0 < total then (completed : ℚ) / (total : ℚ) * 100 else 0)

/-- In every checklist the completed count is at most the total count. -/
theorem completed_le_total (pd : PlanData) :
    (get_plan_progress pd).1 ≤ (get_plan_progress pd).2.1 := by
  simp only [get_plan_progress]
  induction pd.engineer_checklists with
  | nil => simp
  | cons p t ih =>
    simp only [List.map_cons, List.sum_cons]
    exact Nat.add_le_add (List.length_filter_le _ _) ih

end Coordinator

open Coordinator in
/-- C5: for every parsed plan document the aggregator returns
`percentage = completed / total * 100` when `total > 0` and `0` when
`total = 0`, and in all cases `0 ≤ percentage ≤ 100`, where `completed` counts
tasks with `completed = true` across all workers and `total` counts all tasks. -/
theorem progress_formula_and_bounds (pd : PlanData) :
    (get_plan_progress pd).2.2
        = (if (get_plan_progress pd).2.1 = 0 then (0 : ℚ)
           else ((get_plan_progress pd).1 : ℚ) / ((get_plan_progress pd).2.1 : ℚ) * 100)
    ∧ 0 ≤ (get_plan_progress pd).2.2
    ∧ (get_plan_progress pd).2.2 ≤ 100 := by
  have hle : ((get_plan_progress pd).1 : ℚ) ≤ ((get_plan_progress pd).2.1 : ℚ) := by
    exact_mod_cast completed_le_total pd
  have hnn : (0 : ℚ) ≤ ((get_plan_progress pd).1 : ℚ) := by positivity
  rcases Nat.eq_zero_or_pos (get_plan_progress pd).2.1 with h0 | hpos
  · refine ⟨?_, ?_, ?_⟩ <;>
      simp [get_plan_progress, h0] at * <;>
      simp [get_plan_progress, h0]
  · have hposQ : (0 : ℚ) < ((get_plan_progress pd).2.1 : ℚ) := by exact_mod_cast hpos
    have hform : (get_plan_progress pd).2.2
        = ((get_plan_progress pd).1 : ℚ) / ((get_plan_progress pd).2.1 : ℚ) * 100 := by
      simp only [get_plan_progress] at hpos ⊢
      simp [hpos]
    refine ⟨?_, ?_, ?_⟩
    · rw [hform, if_neg (by omega)]
    · rw [hform]; positivity
    · rw [hform]
      have : ((get_plan_progress pd).1 : ℚ) / ((get_plan_progress pd).2.1 : ℚ) ≤ 1 :=
        (div_le_one hposQ).mpr hle
      calc ((get_plan_progress pd).1 : ℚ) / ((get_plan_progress pd).2.1 : ℚ) * 100
          ≤ 1 * 100 := by nlinarith
        _ = 100 := by norm_num

namespace Coordinator

/-! ### Wave Scheduler (`coordinator_loop`, coordinator.py lines 757-924) -/

/-- Embedding of `get_uncompleted_tasks` (lines 229-241): per engineer the
uncompleted tasks, keeping only engineers with at least one. -/
def get_uncompleted_tasks (pd : PlanData) : List (String × List Task) :=
  pd.engineer_checklists.filterMap fun p =>
    let ts := p.2.filter (fun t => !t.completed)
    if ts.isEmpty then none else some (p.1, ts)

/-- The session record tracked by the loop (dataclass `EngineerSession`,
lines 90-99, restricted to the fields the scheduling decisions read: the
log path, start time and pid are bookkeeping handled by the classifier model). -/
structure EngineerSession where
  name : String
  task_instruction : String
  status : EngineerStatus
deriving DecidableEq, Repr

/-- `working_engineers = set of s.name for s in active_sessions with status WORKING`
(line 797). -/
def workingNames (active : List EngineerSession) : List String :=
  (active.filter (fun s => s.status == EngineerStatus.working)).map (fun s => s.name)

/-- The `new_sessions` list built by the launch phase (lines 799-823): iterate
the uncompleted dictionary in order; skip engineers already tracked as Working;
otherwise launch one session carrying the first pending task as instruction.
`ok` models the external Launch Capability succeeding for a given engineer
(`launch_engineer_in_terminal` returning a session rather than None); a fresh
session starts with the dataclass default status WORKING (line 98). -/
def newSessionsFor (ok : String → Bool) (uncompleted : List (String × List Task))
    (active : List EngineerSession) : List EngineerSession :=
  uncompleted.filterMap fun p =>
    if p.1 ∈ workingNames active then none
    else
      match p.2 with
      | [] => none
      | t :: _ => if ok p.1 then some ⟨p.1, t.description, EngineerStatus.working⟩ else none

/-- `active_sessions.extend(new_sessions)` (line 825). -/
def launchStep (ok : String → Bool) (uncompleted : List (String × List Task))
    (active : List EngineerSession) : List EngineerSession :=
  active ++ newSessionsFor ok uncompleted active

/-- One monitor tick (lines 845-863): reclassify every tracked session, then
keep only those still Working.  `classify` abstracts the Status Classifier
applied to the observable side effects of each session. -/
def monitorStep (classify : EngineerSession → EngineerStatus)
    (active : List EngineerSession) : List EngineerSession :=
  (active.map (fun s => { s with status := classify s })).filter
    (fun s => s.status == EngineerStatus.working)

/-- The states of the active-session list reachable by the coordinator loop:
it starts empty (line 771) and evolves by launch waves and monitor ticks.  A
launch wave always draws its uncompleted map from a parsed plan, whose
checklist dictionary has distinct keys. -/
inductive Reachable : List EngineerSession → Prop where
  | init : Reachable []
  | launch (s : List EngineerSession) (hs : Reachable s) (pd : PlanData)
      (hkeys : (pd.engineer_checklists.map Prod.fst).Nodup) (ok : String → Bool) :
      Reachable (launchStep ok (get_uncompleted_tasks pd) s)
  | monitor (s : List EngineerSession) (hs : Reachable s)
      (classify : EngineerSession → EngineerStatus) :
      Reachable (monitorStep classify s)

/-- The keys of the uncompleted map are drawn from the checklist keys. -/
theorem uncompleted_keys_sublist (pd : PlanData) :
    ((get_uncompleted_tasks pd).map Prod.fst).Sublist
      (pd.engineer_checklists.map Prod.fst) := by
  unfold get_uncompleted_tasks
  induction pd.engineer_checklists with
  | nil => simp
  | cons p t ih =>
    simp only [List.filterMap_cons, List.map_cons]
    by_cases hc : (p.2.filter (fun t => !t.completed)).isEmpty
    · simp only [if_pos hc]
      exact ih.cons _
    · simp only [if_neg hc, List.map_cons]
      exact ih.cons₂ p.1

/-- Names of freshly launched sessions are uncompleted-map keys not already
Working. -/
theorem newSessionsFor_name_mem (ok : String → Bool)
    (uncompleted : List (String × List Task)) (active : List EngineerSession)
    (t : EngineerSession) (ht : t ∈ newSessionsFor ok uncompleted active) :
    t.name ∈ uncompleted.map Prod.fst ∧ t.name ∉ workingNames active := by
  unfold newSessionsFor at ht
  rcases List.mem_filterMap.mp ht with ⟨p, hp, hmk⟩
  by_cases hw : p.1 ∈ workingNames active
  · simp [hw] at hmk
  · rcases p with ⟨n, ts⟩
    rcases ts with _ | ⟨t₀, ts⟩
    · simp [hw] at hmk
    · by_cases hok : ok n <;> simp [hw, hok] at hmk
      subst hmk
      exact ⟨List.mem_map_of_mem Prod.fst hp, hw⟩

/-- Fresh sessions preserve name distinctness: the filterMap keeps at most the
key of each uncompleted entry. -/
theorem newSessionsFor_names_sublist (ok : String → Bool)
    (uncompleted : List (String × List Task)) (active : List EngineerSession) :
    ((newSessionsFor ok uncompleted active).map (fun s => s.name)).Sublist
      (uncompleted.map Prod.fst) := by
  unfold newSessionsFor
  induction uncompleted with
  | nil => simp
  | cons p t ih =>
    simp only [List.filterMap_cons, List.map_cons]
    by_cases hw : p.1 ∈ workingNames active
    · simp only [if_pos hw]
      exact ih.cons _
    · rcases p with ⟨n, ts⟩
      rcases ts with _ | ⟨t₀, ts'⟩
      · simp only [if_neg hw]
        exact ih.cons _
      · by_cases hok : ok n
        · simp only [if_neg hw, hok, if_pos rfl, List.map_cons]
          exact ih.cons₂ n
        · simp only [if_neg hw, hok]
          simpa using ih.cons n

/-- Freshly launched sessions carry the dataclass default status WORKING. -/
theorem newSessionsFor_status (ok : String → Bool)
    (uncompleted : List (String × List Task)) (active : List EngineerSession)
    (t : EngineerSession) (ht : t ∈ newSessionsFor ok uncompleted active) :
    t.status = EngineerStatus.working := by
  unfold newSessionsFor at ht
  rcases List.mem_filterMap.mp ht with ⟨p, _, hmk⟩
  by_cases hw : p.1 ∈ workingNames active
  · simp [hw] at hmk
  · rcases p with ⟨n, ts⟩
    rcases ts with _ | ⟨t₀, ts'⟩
    · simp [hw] at hmk
    · by_cases hok : ok n <;> simp [hw, hok] at hmk
      simp [← hmk]

/-- The loop invariant: the names of the active sessions are distinct and every
tracked session is in status Working. -/
def LoopInv (s : List EngineerSession) : Prop :=
  (s.map (fun x => x.name)).Nodup ∧ ∀ x ∈ s, x.status = EngineerStatus.working

/-- The loop invariant holds in every reachable state of the coordinator loop. -/
theorem loopInv_reachable (s : List EngineerSession) (hs : Reachable s) :
    LoopInv s := by
  induction hs with
  | init => exact ⟨List.nodup_nil, by simp⟩
  | launch s hs pd hkeys ok ih =>
    obtain ⟨hnd, hw⟩ := ih
    have hwnames : workingNames s = s.map (fun x => x.name) := by
      unfold workingNames
      rw [List.filter_eq_self.mpr]
      intro a ha
      simp [hw a ha]
    constructor
    · rw [launchStep, List.map_append, List.nodup_append]
      refine ⟨hnd, ?_, ?_⟩
      · exact ((newSessionsFor_names_sublist ok (get_uncompleted_tasks pd) s).trans
          (uncompleted_keys_sublist pd)).nodup hkeys
      · intro a ha hb
        rcases List.mem_map.mp hb with ⟨t, ht, rfl⟩
        have hnot := (newSessionsFor_name_mem ok (get_uncompleted_tasks pd) s t ht).2
        rw [hwnames] at hnot
        exact hnot ha
    · intro x hx
      rcases List.mem_append.mp hx with hx | hx
      · exact hw x hx
      · exact newSessionsFor_status ok (get_uncompleted_tasks pd) s x hx
  | monitor s hs classify ih =>
    obtain ⟨hnd, _⟩ := ih
    constructor
    · have h₁ : (monitorStep classify s).Sublist
          (s.map (fun t => { t with status := classify t })) :=
        List.filter_sublist _
      have h₂ := h₁.map (fun x => x.name)
      rw [List.map_map] at h₂
      exact h₂.nodup (by simpa [Function.comp] using hnd)
    · intro x hx
      unfold monitorStep at hx
      exact eq_of_beq (List.mem_filter.mp hx).2

end Coordinator

open Coordinator in
/-- C1: in every state of the active-session list reachable by the coordinator
loop, no two sessions with status Working carry the same worker name; moreover
at launch time an engineer already tracked as Working is skipped: no freshly
launched session carries a name that is Working in the current active set. -/
theorem at_most_one_active_per_worker (s : List EngineerSession)
    (hs : Reachable s) (ok : String → Bool)
    (uncompleted : List (String × List Task)) (t : EngineerSession)
    (ht : t ∈ newSessionsFor ok uncompleted s) :
    ((s.filter (fun x => x.status == EngineerStatus.working)).map
        (fun x => x.name)).Nodup
    ∧ t.name ∉ workingNames s := by
  obtain ⟨hnd, _⟩ := loopInv_reachable s hs
  exact ⟨((List.filter_sublist _).map _).nodup hnd,
    (newSessionsFor_name_mem ok uncompleted s t ht).2⟩

namespace Coordinator

/-- C1 witness helper: a two-engineer plan with one pending task each. -/
def witnessPlan : PlanData :=
  ⟨"Plan", ["Alex", "Betty"],
    [("Alex", [⟨"task a", false⟩]), ("Betty", [⟨"task b", false⟩])]⟩

/-- C1 witness helper: the active set after the first launch wave of
`witnessPlan`. -/
def witnessActive : List EngineerSession :=
  launchStep (fun _ => true) (get_uncompleted_tasks witnessPlan) []

end Coordinator

open Coordinator in
/-- C1 witness: the at-most-one-active theorem applied to the state reached by
one launch wave of a concrete two-engineer plan, with a fresh launch attempt
for a third engineer. -/
theorem at_most_one_active_per_worker_witness :
    ((witnessActive.filter (fun x => x.status == EngineerStatus.working)).map
        (fun x => x.name)).Nodup
    ∧ ("Cleo" : String) ∉ workingNames witnessActive :=
  at_most_one_active_per_worker witnessActive
    (Reachable.launch [] Reachable.init witnessPlan (by decide) (fun _ => true))
    (fun _ => true) [("Cleo", [⟨"task c", false⟩])]
    ⟨"Cleo", "task c", EngineerStatus.working⟩ (by decide)

open Coordinator in
/-- C3: for a plan with exactly one worker whose checklist holds two pending
tasks and no completed task, starting from an empty active set, the launch
phase creates exactly one session for that worker whose instruction is the
first task description verbatim. -/
theorem first_wave_single_launch (w title : String) (needed : List String)
    (t₁ t₂ : Task) (h₁ : t₁.completed = false) (h₂ : t₂.completed = false) :
    launchStep (fun _ => true)
        (get_uncompleted_tasks ⟨title, needed, [(w, [t₁, t₂])]⟩) []
      = [⟨w, t₁.description, EngineerStatus.working⟩] := by
  simp [launchStep, newSessionsFor, get_uncompleted_tasks, workingNames,
    List.filter, h₁, h₂]

open Coordinator in
/-- C3 witness: the single-launch theorem applied to a concrete one-worker
plan with two pending tasks. -/
theorem first_wave_single_launch_witness :
    launchStep (fun _ => true)
        (get_uncompleted_tasks ⟨"Plan", ["Alex"],
          [("Alex", [⟨"Implement board", false⟩, ⟨"Add tests", false⟩])]⟩) []
      = [⟨"Alex", "Implement board", EngineerStatus.working⟩] :=
  first_wave_single_launch "Alex" "Plan" ["Alex"]
    ⟨"Implement board", false⟩ ⟨"Add tests", false⟩ rfl rfl

namespace Coordinator

/-! ### Worker Session Manager (`get_next_session_id`, coordinator.py lines 141-146) -/

/-- The decimal digit character for `n < 10`. -/
def digitChar (n : Nat) : Char := Char.ofNat (48 + n)

/-- The decimal digit characters of `n` (most significant first); fuel-based
recursion, `n + 1` units of fuel always suffice. -/
def natCharsAux : Nat → Nat → List Char
  | 0, _ => []
  | fuel + 1, n =>
    if n < 10 then [digitChar n]
    else natCharsAux fuel (n / 10) ++ [digitChar (n % 10)]

/-- The decimal digit characters of `n` (Python `str(n)`). -/
def natChars (n : Nat) : List Char := natCharsAux (n + 1) n

/-- Read a digit string back as a number (leading zeros are harmless). -/
def decodeDigits (l : List Char) : Nat :=
  l.foldl (fun acc c => 10 * acc + (c.toNat - 48)) 0

theorem decodeDigits_append_singleton (xs : List Char) (c : Char) :
    decodeDigits (xs ++ [c]) = 10 * decodeDigits xs + (c.toNat - 48) := by
  unfold decodeDigits
  rw [List.foldl_append]
  rfl

theorem digitChar_toNat (k : Nat) (h : k < 10) : (digitChar k).toNat = 48 + k := by
  interval_cases k <;> rfl

theorem decodeDigits_natCharsAux (fuel : Nat) :
    ∀ n, n < fuel → decodeDigits (natCharsAux fuel n) = n := by
  induction fuel with
  | zero => intro n h; omega
  | succ fuel ih =>
    intro n h
    rw [natCharsAux]
    by_cases h10 : n < 10
    · rw [if_pos h10]
      unfold decodeDigits
      simp only [List.foldl_cons, List.foldl_nil]
      rw [digitChar_toNat n h10]
      omega
    · rw [if_neg h10]
      have hdiv : n / 10 < n := Nat.div_lt_self (by omega) (by norm_num)
      rw [decodeDigits_append_singleton, ih (n / 10) (by omega),
        digitChar_toNat (n % 10) (Nat.mod_lt _ (by norm_num))]
      omega

/-- The decimal rendering decodes back to the number it came from. -/
theorem decodeDigits_natChars (n : Nat) : decodeDigits (natChars n) = n :=
  decodeDigits_natCharsAux (n + 1) n (Nat.lt_succ_self n)

/-- Python `str.format` with the `04d` specifier: zero-pad to width four. -/
def pad4 (n : Nat) : List Char :=
  List.replicate (4 - (natChars n).length) '0' ++ natChars n

theorem decodeDigits_replicate_zero (k : Nat) (l : List Char) :
    decodeDigits (List.replicate k '0' ++ l) = decodeDigits l := by
  induction k with
  | zero => rfl
  | succ k ih => simpa [decodeDigits, List.replicate_succ] using ih

theorem pad4_injective : Function.Injective pad4 := by
  intro a b hab
  have ha : decodeDigits (pad4 a) = a := by
    rw [pad4, decodeDigits_replicate_zero, decodeDigits_natChars]
  have hb : decodeDigits (pad4 b) = b := by
    rw [pad4, decodeDigits_replicate_zero, decodeDigits_natChars]
  rw [← ha, ← hb, hab]

/-- The session log file name pattern from coordinator.py line 144. -/
def sessionLogName (engineer : String) (n : Nat) : String :=
  String.mk ("engineer_".data ++ engineer.data
    ++ ("_session_".data ++ (pad4 n ++ ".log".data)))

theorem sessionLogName_injective (engineer : String) :
    Function.Injective (sessionLogName engineer) := by
  intro a b hab
  apply pad4_injective
  have h₁ : ("engineer_".data ++ engineer.data)
        ++ ("_session_".data ++ (pad4 a ++ ".log".data))
      = ("engineer_".data ++ engineer.data)
        ++ ("_session_".data ++ (pad4 b ++ ".log".data)) :=
    congrArg String.data hab
  exact List.append_cancel_right
    (List.append_cancel_left (List.append_cancel_left h₁))

/-- The scanning loop of `get_next_session_id`: try ordinals upward from `n`
while the corresponding log file exists. -/
def nextSessionAux (engineer : String) (files : List String) : Nat → Nat → Nat
  | 0, n => n
  | fuel + 1, n =>
    if sessionLogName engineer n ∈ files then nextSessionAux engineer files fuel (n + 1)
    else n

/-- Embedding of `get_next_session_id` (lines 141-146).  The log directory is
modelled by the list of file names it contains; the while loop increments the
ordinal from 0 while the session log name exists, and `files.length + 1`
iterations always suffice because the candidate names are pairwise distinct. -/
def get_next_session_id (engineer : String) (files : List String) : Nat :=
  nextSessionAux engineer files (files.length + 1) 0

theorem nextSessionAux_occupied (engineer : String) (files : List String)
    (fuel : Nat) :
    ∀ n m, n ≤ m → m < nextSessionAux engineer files fuel n →
      sessionLogName engineer m ∈ files := by
  induction fuel with
  | zero =>
    intro n m hnm hlt
    rw [nextSessionAux] at hlt
    omega
  | succ fuel ih =>
    intro n m hnm hlt
    rw [nextSessionAux] at hlt
    by_cases hmem : sessionLogName engineer n ∈ files
    · rw [if_pos hmem] at hlt
      rcases Nat.eq_or_lt_of_le hnm with rfl | hlt'
      · exact hmem
      · exact ih (n + 1) m hlt' hlt
    · rw [if_neg hmem] at hlt
      omega

theorem nextSessionAux_free (engineer : String) (files : List String)
    (fuel : Nat) :
    ∀ n, (∃ k, k < fuel ∧ sessionLogName engineer (n + k) ∉ files) →
      sessionLogName engineer (nextSessionAux engineer files fuel n) ∉ files := by
  induction fuel with
  | zero =>
    intro n ⟨k, hk, _⟩
    omega
  | succ fuel ih =>
    intro n ⟨k, hk, hfree⟩
    rw [nextSessionAux]
    by_cases hmem : sessionLogName engineer n ∈ files
    · rw [if_pos hmem]
      refine ih (n + 1) ⟨k - 1, ?_, ?_⟩
      · rcases Nat.eq_zero_or_pos k with rfl | hkpos
        · exact absurd hmem (by simpa using hfree)
        · omega
      · have hkpos : 0 < k := by
          rcases Nat.eq_zero_or_pos k with rfl | hkpos
          · exact absurd hmem (by simpa using hfree)
          · exact hkpos
        have : n + 1 + (k - 1) = n + k := by omega
        rw [this]
        exact hfree
    · rwa [if_neg hmem]

/-- Pigeonhole: among the first `files.length + 1` candidate ordinals some
session log name is unused. -/
theorem exists_free_ordinal (engineer : String) (files : List String) :
    ∃ k, k < files.length + 1 ∧ sessionLogName engineer k ∉ files := by
  by_contra hall
  push_neg at hall
  have hsub : (List.range (files.length + 1)).map (sessionLogName engineer) ⊆ files := by
    intro x hx
    rcases List.mem_map.mp hx with ⟨k, hk, rfl⟩
    exact hall k (List.mem_range.mp hk)
  have hnd : ((List.range (files.length + 1)).map (sessionLogName engineer)).Nodup :=
    (List.nodup_range _).map (sessionLogName_injective engineer)
  have := (hnd.subperm hsub).length_le
  simp at this

/-- The allocated ordinal is free and everything below it is occupied. -/
theorem get_next_session_id_spec (engineer : String) (files : List String) :
    sessionLogName engineer (get_next_session_id engineer files) ∉ files
    ∧ ∀ m, m < get_next_session_id engineer files →
        sessionLogName engineer m ∈ files := by
  constructor
  · refine nextSessionAux_free engineer files (files.length + 1) 0 ?_
    simpa using exists_free_ordinal engineer files
  · intro m hm
    exact nextSessionAux_occupied engineer files (files.length + 1) 0 m
      (Nat.zero_le m) hm

end Coordinator

open Coordinator in
/-- C8: the session ordinal computed for a new launch is the smallest
non-negative integer not already used by that worker's existing session logs:
its log name is unused, every smaller ordinal's log name is present, and the
result depends only on which of the worker's own session log names exist, so
sessions of other workers never affect it (per-worker namespace). -/
theorem session_ordinal_least (engineer : String) (files files₂ : List String)
    (m : Nat)
    (hsame : ∀ n, sessionLogName engineer n ∈ files
        ↔ sessionLogName engineer n ∈ files₂)
    (hm : m < get_next_session_id engineer files) :
    sessionLogName engineer (get_next_session_id engineer files) ∉ files
    ∧ sessionLogName engineer m ∈ files
    ∧ get_next_session_id engineer files = get_next_session_id engineer files₂ := by
  obtain ⟨hfree, hocc⟩ := get_next_session_id_spec engineer files
  obtain ⟨hfree₂, hocc₂⟩ := get_next_session_id_spec engineer files₂
  refine ⟨hfree, hocc m hm, ?_⟩
  rcases Nat.lt_trichotomy (get_next_session_id engineer files)
      (get_next_session_id engineer files₂) with h | h | h
  · exact absurd ((hsame _).mpr (hocc₂ _ h)) hfree
  · exact h
  · exact absurd ((hsame _).mp (hocc _ h)) hfree₂

namespace Coordinator

/-- C8 witness helper: a log directory holding two sessions of Alex and one of
Betty. -/
def witnessFiles : List String :=
  [sessionLogName "Alex" 0, sessionLogName "Betty" 0, sessionLogName "Alex" 1]

end Coordinator

open Coordinator in
/-- C8 witness: the least-unused-ordinal theorem applied to a concrete log
directory, allocating ordinal 2 for Alex past the occupied ordinal 1. -/
theorem session_ordinal_least_witness :
    sessionLogName "Alex" (get_next_session_id "Alex" witnessFiles) ∉ witnessFiles
    ∧ sessionLogName "Alex" 1 ∈ witnessFiles
    ∧ get_next_session_id "Alex" witnessFiles
        = get_next_session_id "Alex" witnessFiles :=
  session_ordinal_least "Alex" witnessFiles witnessFiles 1
    (fun _ => Iff.rfl) (by decide)

namespace Coordinator

/-! ### Plan Parser (`parse_plan_file`, coordinator.py lines 152-213) -/

/-- Python regex `\w` on the ASCII range. -/
def isWordChar (c : Char) : Bool :=
  ('a' ≤ c && c ≤ 'z') || ('A' ≤ c && c ≤ 'Z') || ('0' ≤ c && c ≤ '9') || c == '_'

/-- The marker alternation of the task pattern (line 197): digits followed by
a dot, a dash, or a star. -/
def matchMarker (l : List Char) : Option (List Char) :=
  let ds := l.takeWhile Char.isDigit
  if ds.isEmpty then
    match l with
    | '-' :: r => some r
    | '*' :: r => some r
    | _ => none
  else
    match l.drop ds.length with
    | '.' :: r => some r
    | _ => none

/-- The tail of the task pattern after the checkbox: greedy whitespace, then
the lazy one-line description group with its end-of-line lookahead.  When the
whitespace run swallows everything, the regex engine backtracks and captures
the last non-newline whitespace character.  Returns the raw group text and the
unconsumed remainder (the lookahead keeps the final newline). -/
def matchDesc (r : List Char) : Option (List Char × List Char) :=
  let r₁ := r.dropWhile isSpaceChar
  if r₁.isEmpty then
    match r.reverse.dropWhile (fun c => c == '\n') with
    | [] => none
    | c :: rest => some ([c], r.drop (rest.length + 1))
  else
    some (r₁.takeWhile (fun c => !(c == '\n')), r₁.dropWhile (fun c => !(c == '\n')))

/-- One attempt of the task pattern (line 197) at an anchor position: leading
whitespace, marker, whitespace, checkbox, description.  The description group
is stripped (line 200) and the checkbox marks the task completed when its
letter lowercases to x (line 199). -/
def matchTaskAt (l : List Char) : Option (Task × List Char) :=
  match matchMarker (l.dropWhile isSpaceChar) with
  | none => none
  | some l₂ =>
    match l₂.dropWhile isSpaceChar with
    | '[' :: c :: ']' :: l₃ =>
      if c == ' ' || c == 'x' || c == 'X' then
        match matchDesc l₃ with
        | none => none
        | some (d, rest) =>
          some (⟨String.mk (pyStrip d), c.toLower == 'x'⟩, rest)
      else none
    | _ => none

/-- Scan for the newline anchors of the task pattern and collect the
non-overlapping matches, as `re.finditer` does. -/
def scanAnchors : Nat → List Char → List Task
  | 0, _ => []
  | _ + 1, [] => []
  | fuel + 1, c :: rest =>
    if c == '\n' then
      match matchTaskAt rest with
      | some (t, rest') => t :: scanAnchors fuel rest'
      | none => scanAnchors fuel rest
    else scanAnchors fuel rest

/-- All checklist items of a section body (lines 196-205): one pattern attempt
anchored at the start of the content, then one at every newline. -/
def scanTasks (s : String) : List Task :=
  match matchTaskAt s.data with
  | some (t, rest) => t :: scanAnchors s.data.length rest
  | none => scanAnchors s.data.length s.data

/-- Case-insensitive literal match (regex IGNORECASE, ASCII); returns the
remainder after the literal. -/
def matchCI : List Char → List Char → Option (List Char)
  | [], l => some l
  | _ :: _, [] => none
  | p :: ps, c :: cs => if p.toLower == c.toLower then matchCI ps cs else none

/-- One attempt of the checklist heading pattern (line 183) at a position: at
least two hashes, whitespace, the greedy word-character name, an optional
ASCII apostrophe, an optional letter s (IGNORECASE), mandatory whitespace and
the word checklist.  Returns the name and the remainder. -/
def matchHeadingAt (l : List Char) : Option (List Char × List Char) :=
  match l with
  | '#' :: '#' :: r =>
    let r₁ := r.dropWhile (fun c => c == '#')
    let r₂ := r₁.dropWhile isSpaceChar
    let name := r₂.takeWhile isWordChar
    if name.isEmpty then none
    else
      let r₃ := r₂.drop name.length
      let r₄ := match r₃ with
                | '\'' :: rr => rr
                | _ => r₃
      let r₅ := match r₄ with
                | 's' :: rr => rr
                | 'S' :: rr => rr
                | _ => r₄
      if (r₅.takeWhile isSpaceChar).isEmpty then none
      else (matchCI "checklist".data (r₅.dropWhile isSpaceChar)).map
        (fun r₆ => (name, r₆))
  | _ => none

/-- Split the content at the next position where the heading pattern matches
(the lookahead terminator of the checklist pattern keeps the heading
unconsumed); when no heading follows, the whole remainder is the body. -/
def splitAtNextHeading : Nat → List Char → List Char × List Char
  | 0, l => (l, [])
  | fuel + 1, l =>
    match l with
    | [] => ([], [])
    | c :: r =>
      if (matchHeadingAt l).isSome then ([], l)
      else
        let p := splitAtNextHeading fuel r
        (c :: p.1, p.2)

/-- `re.finditer` of the checklist pattern (lines 183-187): every heading
opens a section whose stripped body runs to the next heading or the end of the
document. -/
def scanSectionsAux : Nat → List Char → List (String × String)
  | 0, _ => []
  | fuel + 1, l =>
    match l with
    | [] => []
    | _ :: r =>
      match matchHeadingAt l with
      | some (name, after) =>
        let p := splitAtNextHeading after.length after
        (String.mk name, String.mk (pyStrip p.1)) :: scanSectionsAux fuel p.2
      | none => scanSectionsAux fuel r

/-- The checklist sections of the document, in order of appearance. -/
def scanSections (s : String) : List (String × String) :=
  scanSectionsAux s.data.length s.data

/-- The title pattern (line 168) attempted at a line-start anchor: a single
hash, mandatory whitespace (which may cross newlines), then the greedy
one-line group, stripped.  With only whitespace to the end of the text the
regex backtracks, keeps one whitespace character and captures a trailing
non-newline whitespace character, which strips to the empty title. -/
def titleAtAnchor (l : List Char) : Option String :=
  match l with
  | '#' :: r =>
    let w := r.takeWhile isSpaceChar
    let rest := r.dropWhile isSpaceChar
    if w.isEmpty then none
    else if !rest.isEmpty then
      some (String.mk (pyStrip (rest.takeWhile (fun c => !(c == '\n')))))
    else
      match r.reverse.dropWhile (fun c => c == '\n') with
      | [] => none
      | _ :: restRev => if 1 ≤ restRev.length then some "" else none
  | _ => none

/-- Scan the line-start anchors after each newline for the title pattern. -/
def findTitleScan : Nat → List Char → Option String
  | 0, _ => none
  | _ + 1, [] => none
  | fuel + 1, c :: rest =>
    if c == '\n' then
      match titleAtAnchor rest with
      | some t => some t
      | none => findTitleScan fuel rest
    else findTitleScan fuel rest

/-- `re.search` with MULTILINE: the leftmost line-start anchor matching the
title pattern. -/
def findTitle (content : String) : Option String :=
  match titleAtAnchor content.data with
  | some t => some t
  | none => findTitleScan content.data.length content.data

/-- Mandatory whitespace followed by the literal needed (IGNORECASE). -/
def matchNeededTail (r : List Char) : Option (List Char) :=
  if (r.takeWhile isSpaceChar).isEmpty then none
  else matchCI "needed".data (r.dropWhile isSpaceChar)

/-- The keyword alternation of the engineers-needed pattern (line 173),
case-insensitive, with the regex backtracking on the optional letter s. -/
def matchDeclKeyword (l : List Char) : Option (List Char) :=
  match matchCI "engineer".data l with
  | some r =>
    (match r with
     | 's' :: r' => matchNeededTail r'
     | 'S' :: r' => matchNeededTail r'
     | _ => none) <|> matchNeededTail r
  | none =>
    match matchCI "how".data l with
    | some r =>
      if (r.takeWhile isSpaceChar).isEmpty then none
      else
        match matchCI "many".data (r.dropWhile isSpaceChar) with
        | some r₂ =>
          if (r₂.takeWhile isSpaceChar).isEmpty then none
          else matchCI "engineers".data (r₂.dropWhile isSpaceChar)
        | none => none
    | none => none

/-- The separator run and lazy group of the engineers-needed pattern: one or
more colon or whitespace characters, then the rest of the line; when the run
swallows the whole remainder the regex backtracks, keeping one separator
character and capturing a trailing whitespace character. -/
def matchDeclGroup (r : List Char) : Option (List Char) :=
  let w := r.takeWhile (fun c => c == ':' || isSpaceChar c)
  if w.isEmpty then none
  else
    let r₁ := r.dropWhile (fun c => c == ':' || isSpaceChar c)
    if r₁.isEmpty then
      match r.reverse.dropWhile (fun c => c == '\n') with
      | [] => none
      | c :: rest => if 1 ≤ rest.length then some [c] else none
    else
      some (r₁.takeWhile (fun c => !(c == '\n')))

/-- `re.search` of the engineers-needed pattern (lines 173-174): the group of
the leftmost match. -/
def findEngineersDecl : Nat → List Char → Option (List Char)
  | 0, _ => none
  | fuel + 1, l =>
    match (matchDeclKeyword l).bind matchDeclGroup with
    | some g => some g
    | none =>
      match l with
      | [] => none
      | _ :: r => findEngineersDecl fuel r

/-- The fixed engineer roster (coordinator.py line 43). -/
def ENGINEERS : List String := ["Alex", "Betty", "Cleo", "Dany", "Eddy"]

/-- Python dict assignment: replace the value of an existing key in place
(keeping the original key object and position) or append a new entry. -/
def upsert (k : String) (v : List Task) :
    List (String × List Task) → List (String × List Task)
  | [] => [(k, v)]
  | (k', v') :: t => if k' == k then (k', v) :: t else (k', v') :: upsert k v t

/-- Name normalization against the roster (lines 190-193): the first roster
member matching case-insensitively, or the literal heading text. -/
def normalizeName (raw : String) : String :=
  (ENGINEERS.find? (fun e => pyLower e.data == pyLower raw.data)).getD raw

/-- The per-section step of `parse_plan_file` (lines 185-211): normalize the
heading name, parse the checklist items, store them under the normalized name,
and append roster members to `engineers_needed` when not yet present
(lines 209-211). -/
def parseSectionStep (acc : List String × List (String × List Task))
    (sec : String × String) : List String × List (String × List Task) :=
  (if normalizeName sec.1 ∈ ENGINEERS ∧ normalizeName sec.1 ∉ acc.1
   then acc.1 ++ [normalizeName sec.1] else acc.1,
   upsert (normalizeName sec.1) (scanTasks sec.2) acc.2)

/-- The roster members named by the engineers-needed declaration line
(lines 173-179): those whose lowercased name is a substring of the lowercased
group text. -/
def declEngineers (content : String) : List String :=
  match findEngineersDecl (content.data.length + 1) content.data with
  | none => []
  | some g => ENGINEERS.filter fun e => occursIn (pyLower e.data) (pyLower g)

/-- Embedding of `parse_plan_file` (lines 152-213) on the document text. -/
def parse_plan_file (content : String) : PlanData :=
  ⟨(findTitle content).getD "",
   ((scanSections content).foldl parseSectionStep (declEngineers content, [])).1,
   ((scanSections content).foldl parseSectionStep (declEngineers content, [])).2⟩

/-! ### Checklist fidelity lemmas -/

theorem scanAnchors_nil (fuel : Nat) : scanAnchors fuel [] = [] := by
  cases fuel <;> rfl

theorem isSpaceChar_eq_false_of_digit {c : Char} (h : c.isDigit = true) :
    isSpaceChar c = false := by
  by_contra hne
  have hs : isSpaceChar c = true := by
    cases hx : isSpaceChar c
    · exact absurd hx hne
    · rfl
  unfold isSpaceChar at hs
  simp only [Bool.or_eq_true, beq_iff_eq] at hs
  rcases hs with ((((rfl | rfl) | rfl) | rfl) | rfl) | rfl <;> exact absurd h (by decide)

theorem takeWhile_append_cons {α : Type} (p : α → Bool) (xs : List α) (y : α)
    (t : List α) (hx : ∀ a ∈ xs, p a = true) (hy : p y = false) :
    (xs ++ y :: t).takeWhile p = xs ∧ (xs ++ y :: t).dropWhile p = y :: t := by
  induction xs with
  | nil => simp [List.takeWhile_cons, List.dropWhile_cons, hy]
  | cons a xs ih =>
    have ha : p a = true := hx a (List.mem_cons_self a xs)
    have := ih (fun b hb => hx b (List.mem_cons_of_mem a hb))
    simp [List.takeWhile_cons, List.dropWhile_cons, ha, this.1, this.2]

theorem takeWhile_eq_self_of_all {α : Type} (p : α → Bool) (l : List α)
    (h : ∀ a ∈ l, p a = true) :
    l.takeWhile p = l ∧ l.dropWhile p = [] := by
  induction l with
  | nil => simp
  | cons a t ih =>
    have := ih (fun b hb => h b (List.mem_cons_of_mem a hb))
    simp [List.takeWhile_cons, List.dropWhile_cons, h a (List.mem_cons_self a t),
      this.1, this.2]

theorem dropWhile_idem {α : Type} (p : α → Bool) (l : List α) :
    (l.dropWhile p).dropWhile p = l.dropWhile p := by
  induction l with
  | nil => rfl
  | cons a t ih =>
    by_cases h : p a
    · simp [List.dropWhile_cons, h, ih]
    · simp [List.dropWhile_cons, h]

theorem pyStrip_dropWhile (l : List Char) :
    pyStrip (l.dropWhile isSpaceChar) = pyStrip l := by
  unfold pyStrip
  rw [dropWhile_idem]

/-- The description group of a newline-free checkbox tail with visible content
is the tail after its leading whitespace, and the match consumes the whole
tail. -/
theorem matchDesc_no_newline (rest : List Char)
    (hnl : ∀ a ∈ rest, (a == '\n') = false)
    (hne : rest.dropWhile isSpaceChar ≠ []) :
    matchDesc rest = some (rest.dropWhile isSpaceChar, []) := by
  unfold matchDesc
  have hall : ∀ a ∈ rest.dropWhile isSpaceChar, (!(a == '\n')) = true := by
    intro a ha
    rw [hnl a ((List.dropWhile_sublist _).mem ha)]
    rfl
  have hself := takeWhile_eq_self_of_all (fun c => !(c == '\n')) _ hall
  have hemp : (rest.dropWhile isSpaceChar).isEmpty = false := by
    cases hx : rest.dropWhile isSpaceChar
    · exact absurd hx hne
    · rfl
  simp only [hemp, Bool.false_eq_true, if_false, hself.1, hself.2]

/-- The full task pattern on a single checklist line built from a marker, a
checkbox and a newline-free remainder with visible content. -/
theorem matchTaskAt_line (m : String) (c : Char) (rest : List Char)
    (hm : m.data = ['-'] ∨ m.data = ['*']
        ∨ ∃ ds : List Char, ds ≠ [] ∧ (∀ d ∈ ds, d.isDigit = true)
            ∧ m.data = ds ++ ['.'])
    (hc : c = ' ' ∨ c = 'x' ∨ c = 'X')
    (hnl : ∀ a ∈ rest, (a == '\n') = false)
    (hne : rest.dropWhile isSpaceChar ≠ []) :
    matchTaskAt (m.data ++ ' ' :: '[' :: c :: ']' :: rest)
      = some (⟨String.mk (pyStrip rest), c.toLower == 'x'⟩, []) := by
  have htail : ((' ' :: '[' :: c :: ']' :: rest).dropWhile isSpaceChar)
      = '[' :: c :: ']' :: rest := by
    rw [List.dropWhile_cons, if_pos (by decide), List.dropWhile_cons, if_neg (by decide)]
  have hcond : (c == ' ' || c == 'x' || c == 'X') = true := by
    rcases hc with rfl | rfl | rfl <;> decide
  have hdesc := matchDesc_no_newline rest hnl hne
  have hstrip := pyStrip_dropWhile rest
  rcases hm with hm | hm | ⟨ds, hds, hdig, hm⟩
  · have hdw : ('-' :: ' ' :: '[' :: c :: ']' :: rest).dropWhile isSpaceChar
        = '-' :: ' ' :: '[' :: c :: ']' :: rest := by
      simp [List.dropWhile_cons, isSpaceChar]
    have hmm : matchMarker ('-' :: ' ' :: '[' :: c :: ']' :: rest)
        = some (' ' :: '[' :: c :: ']' :: rest) := by
      have h1 : ('-').isDigit = false := by decide
      unfold matchMarker
      simp [List.takeWhile_cons, h1]
    unfold matchTaskAt
    rw [hm, List.singleton_append]
    simp [hdw, hmm, htail, hcond, hdesc, hstrip]
  · have hdw : ('*' :: ' ' :: '[' :: c :: ']' :: rest).dropWhile isSpaceChar
        = '*' :: ' ' :: '[' :: c :: ']' :: rest := by
      simp [List.dropWhile_cons, isSpaceChar]
    have hmm : matchMarker ('*' :: ' ' :: '[' :: c :: ']' :: rest)
        = some (' ' :: '[' :: c :: ']' :: rest) := by
      have h1 : ('*').isDigit = false := by decide
      unfold matchMarker
      simp [List.takeWhile_cons, h1]
    unfold matchTaskAt
    rw [hm, List.singleton_append]
    simp [hdw, hmm, htail, hcond, hdesc, hstrip]
  · obtain ⟨d₀, ds', rfl⟩ : ∃ d₀ ds', ds = d₀ :: ds' := by
      cases ds with
      | nil => exact absurd rfl hds
      | cons d₀ ds' => exact ⟨d₀, ds', rfl⟩
    have hd₀ : d₀.isDigit = true := hdig d₀ (List.mem_cons_self d₀ ds')
    have hshape : m.data ++ ' ' :: '[' :: c :: ']' :: rest
        = d₀ :: (ds' ++ '.' :: ' ' :: '[' :: c :: ']' :: rest) := by
      rw [hm]
      simp [List.append_assoc]
    have htw := takeWhile_append_cons Char.isDigit (d₀ :: ds') '.'
      (' ' :: '[' :: c :: ']' :: rest) hdig (by decide)
    have hdw : ((d₀ :: (ds' ++ '.' :: ' ' :: '[' :: c :: ']' :: rest)).dropWhile isSpaceChar)
        = d₀ :: (ds' ++ '.' :: ' ' :: '[' :: c :: ']' :: rest) := by
      simp [List.dropWhile_cons, isSpaceChar_eq_false_of_digit hd₀]
    have hmm : matchMarker (d₀ :: (ds' ++ '.' :: ' ' :: '[' :: c :: ']' :: rest))
        = some (' ' :: '[' :: c :: ']' :: rest) := by
      unfold matchMarker
      rw [show d₀ :: (ds' ++ '.' :: ' ' :: '[' :: c :: ']' :: rest)
          = (d₀ :: ds') ++ '.' :: ' ' :: '[' :: c :: ']' :: rest from rfl]
      rw [htw.1]
      simp only [List.isEmpty_cons, Bool.false_eq_true, if_false]
      rw [List.drop_left]
      rfl
    unfold matchTaskAt
    rw [hshape]
    simp [hdw, hmm, htail, hcond, hdesc, hstrip]

end Coordinator

open Coordinator in
/-- C4: for every checklist line formed from a marker (a dash, a star, or a
digit string followed by a dot) and a checkbox whose letter is a space, x or X,
followed by a newline-free remainder with visible content, the parser yields
exactly one task, completed precisely when the checkbox letter is a
case-insensitive x, whose description is the remaining text of the line,
stripped. -/
theorem checklist_fidelity (m : String) (c : Char) (rest : String)
    (hm : m.data = ['-'] ∨ m.data = ['*']
        ∨ ∃ ds : List Char, ds ≠ [] ∧ (∀ d ∈ ds, d.isDigit = true)
            ∧ m.data = ds ++ ['.'])
    (hc : c = ' ' ∨ c = 'x' ∨ c = 'X')
    (hnl : ∀ a ∈ rest.data, (a == '\n') = false)
    (hne : rest.data.dropWhile isSpaceChar ≠ []) :
    scanTasks (m ++ " [" ++ String.mk [c] ++ "]" ++ rest)
      = [⟨String.mk (pyStrip rest.data), c == 'x' || c == 'X'⟩] := by
  have hdata : (m ++ " [" ++ String.mk [c] ++ "]" ++ rest).data
      = m.data ++ ' ' :: '[' :: c :: ']' :: rest.data := by
    simp [String.data_append]
  have hmt := matchTaskAt_line m c rest.data hm hc hnl hne
  have hflag : (c.toLower == 'x') = (c == 'x' || c == 'X') := by
    rcases hc with rfl | rfl | rfl <;> decide
  unfold scanTasks
  rw [hdata, hmt]
  simp only [scanAnchors_nil, hflag]

open Coordinator in
/-- C4 witness: the fidelity theorem applied to a concrete dashed line with a
checked box. -/
theorem checklist_fidelity_witness :
    scanTasks ("-" ++ " [" ++ String.mk ['x'] ++ "]" ++ " Implement the parser")
      = [⟨String.mk (pyStrip (" Implement the parser" : String).data),
          ('x' == 'x' || 'x' == 'X')⟩] :=
  checklist_fidelity "-" 'x' " Implement the parser" (Or.inl rfl)
    (Or.inr (Or.inl rfl)) (by decide) (by decide)

namespace Coordinator

/-! ### Unrecognized worker names -/

theorem mem_keys_upsert_self (k : String) (v : List Task)
    (l : List (String × List Task)) :
    k ∈ (upsert k v l).map Prod.fst := by
  induction l with
  | nil => simp [upsert]
  | cons p t ih =>
    unfold upsert
    by_cases h : p.1 == k
    · simp only [h, if_pos rfl]
      simp [eq_of_beq h]
    · rcases p with ⟨k', v'⟩
      simp only at h
      rw [if_neg (by simpa using h)]
      simpa using Or.inr ih

theorem mem_keys_upsert_of_mem (a k : String) (v : List Task)
    (l : List (String × List Task)) (ha : a ∈ l.map Prod.fst) :
    a ∈ (upsert k v l).map Prod.fst := by
  induction l with
  | nil => simp at ha
  | cons p t ih =>
    rcases p with ⟨k', v'⟩
    rw [List.map_cons] at ha
    unfold upsert
    by_cases h : (k' == k)
    · rw [if_pos h, List.map_cons]
      exact ha
    · rw [if_neg h, List.map_cons]
      rcases List.mem_cons.mp ha with rfl | ha2
      · exact List.mem_cons_self _ _
      · exact List.mem_cons_of_mem _ (ih ha2)

theorem foldl_needed_subset (secs : List (String × String)) :
    ∀ acc : List String × List (String × List Task),
      (∀ x ∈ acc.1, x ∈ ENGINEERS) →
      ∀ x ∈ (secs.foldl parseSectionStep acc).1, x ∈ ENGINEERS := by
  induction secs with
  | nil => intro acc h x hx; exact h x hx
  | cons s t ih =>
    intro acc h x hx
    rw [List.foldl_cons] at hx
    refine ih (parseSectionStep acc s) ?_ x hx
    intro y hy
    unfold parseSectionStep at hy
    by_cases hc : normalizeName s.1 ∈ ENGINEERS ∧ normalizeName s.1 ∉ acc.1
    · simp only [if_pos hc] at hy
      rcases List.mem_append.mp hy with hy | hy
      · exact h y hy
      · rw [List.mem_singleton.mp hy]
        exact hc.1
    · simp only [if_neg hc] at hy
      exact h y hy

theorem foldl_keys_mono (secs : List (String × String)) :
    ∀ (acc : List String × List (String × List Task)) (k : String),
      k ∈ acc.2.map Prod.fst →
      k ∈ ((secs.foldl parseSectionStep acc).2).map Prod.fst := by
  induction secs with
  | nil => intro acc k h; exact h
  | cons s t ih =>
    intro acc k h
    rw [List.foldl_cons]
    exact ih (parseSectionStep acc s) k (mem_keys_upsert_of_mem k _ _ _ h)

theorem normalizeName_eq_self (raw : String)
    (h : ∀ e ∈ ENGINEERS, pyLower e.data ≠ pyLower raw.data) :
    normalizeName raw = raw := by
  unfold normalizeName
  rw [List.find?_eq_none.mpr]
  · rfl
  · intro e he hbeq
    exact h e he (eq_of_beq hbeq)

theorem declEngineers_subset (content : String) :
    ∀ x ∈ declEngineers content, x ∈ ENGINEERS := by
  intro x hx
  unfold declEngineers at hx
  rcases hfind : findEngineersDecl (content.data.length + 1) content.data with _ | g <;>
    rw [hfind] at hx
  · simp at hx
  · exact List.filter_subset' ENGINEERS hx

end Coordinator

open Coordinator in
/-- C6 (amended): a checklist heading whose name does not case-insensitively
match the fixed roster is still recorded under its literal name in the parsed
checklists, but that name is never part of `engineers_needed` — the
engineers-needed declaration line can only contribute roster members, so it
cannot add an unrecognized name either. -/
theorem unrecognized_worker_recorded (content name body : String)
    (hmem : (name, body) ∈ scanSections content)
    (hnorm : ∀ e ∈ ENGINEERS, pyLower e.data ≠ pyLower name.data) :
    name ∈ (parse_plan_file content).engineer_checklists.map Prod.fst
    ∧ name ∉ (parse_plan_file content).engineers_needed := by
  have hself : normalizeName name = name := normalizeName_eq_self name hnorm
  have hnotros : name ∉ ENGINEERS := fun hmem' => hnorm name hmem' rfl
  constructor
  · show name ∈ (((scanSections content).foldl parseSectionStep
        (declEngineers content, [])).2).map Prod.fst
    obtain ⟨pre, post, hsecs⟩ := List.append_of_mem hmem
    rw [hsecs, List.foldl_append, List.foldl_cons]
    apply foldl_keys_mono
    show name ∈ (upsert (normalizeName name) _ _).map Prod.fst
    rw [hself]
    exact mem_keys_upsert_self name _ _
  · intro hcontra
    exact hnotros (foldl_needed_subset (scanSections content)
      (declEngineers content, []) (declEngineers_subset content) name hcontra)

namespace Coordinator

/-- C6 counterexample document: an engineers-needed line naming Zara and a
checklist section for Zara, a name outside the roster. -/
def unrecognizedDoc : String :=
  "engineers needed: Zara\n## Zara's checklist\n- [ ] task one\n"

/-- C6 witness document: a checklist section for the non-roster name Zara. -/
def unrecognizedWitnessDoc : String := "## Zara's checklist\n- [ ] first item\n"

end Coordinator

open Coordinator in
/-- C6 counterexample: the declaration line group is exactly the text Zara,
and the section is recorded under the literal name Zara, yet Zara is not in
`engineers_needed` — refuting the claimed if-and-only-if between membership in
`engineers_needed` and being named on the declaration line. -/
theorem unrecognized_worker_counterexample :
    findEngineersDecl (unrecognizedDoc.data.length + 1) unrecognizedDoc.data
        = some ("Zara" : String).data
    ∧ (parse_plan_file unrecognizedDoc).engineer_checklists
        = [("Zara", [⟨"task one", false⟩])]
    ∧ "Zara" ∉ (parse_plan_file unrecognizedDoc).engineers_needed := by
  refine ⟨by decide, by decide, by decide⟩

open Coordinator in
/-- C6 witness: the amended theorem applied to a concrete document with a
section for the non-roster name Zara. -/
theorem unrecognized_worker_recorded_witness :
    "Zara" ∈ (parse_plan_file unrecognizedWitnessDoc).engineer_checklists.map Prod.fst
    ∧ "Zara" ∉ (parse_plan_file unrecognizedWitnessDoc).engineers_needed :=
  unrecognized_worker_recorded unrecognizedWitnessDoc "Zara" "- [ ] first item"
    (by decide) (by decide)

namespace UpdatePlan

/-! ### Concurrent Document Patcher (`update_plan_section.py`, lines 18-72).
The section-marker regular expressions of lines 41 and 49 consist of literal
pieces joined by lazy gaps, embedded here through leftmost-occurrence search;
the advisory lock, the file reads and the write-back are the surrounding IO,
so the embedding maps the document text to the text written back. -/

open Coordinator

/-- The pending status line of the placeholder pattern (line 41). -/
def STATUS_PENDING : List Char := "\n**Status:** ⏳ Analyzing...".data

/-- The pending content marker of the placeholder pattern (line 41). -/
def PENDING_TAIL : List Char := "\n\n_Analysis pending..._".data

/-- The completed status line inserted by both substitutions (lines 44, 52). -/
def STATUS_COMPLETE : List Char := "\n**Status:** ✅ Complete\n\n".data

/-- The first boundary alternative of the fallback pattern (line 49). -/
def BOUNDARY1 : List Char := "\n---\n### ".data

/-- The second boundary alternative, the designated end marker (line 49). -/
def BOUNDARY2 : List Char := "\n<!-- ANALYST_SECTION_END -->".data

/-- The literal head of both patterns: three hashes, a space, and the escaped
section marker. -/
def headOf (marker : String) : List Char := "### ".data ++ marker.data

/-- The index of the leftmost occurrence of `pat` in `l`. -/
def findOcc (pat : List Char) : List Char → Option Nat
  | [] => if pat.isEmpty then some 0 else none
  | c :: cs =>
    if startsWithChars pat (c :: cs) then some 0
    else (findOcc pat cs).map (fun i => i + 1)

/-- The span located by the placeholder pattern (line 41): the leftmost head
occurrence followed, across the lazy gap, by the pending status line and the
pending content marker; returns the absolute index of the pending status
line.  A head occurrence with no pending marker anywhere after it leaves no
match at any later position either. -/
def findPlaceholder (hd l : List Char) : Option Nat :=
  (findOcc hd l).bind fun i =>
    (findOcc (STATUS_PENDING ++ PENDING_TAIL) (l.drop (i + hd.length))).map
      fun j => i + hd.length + j

/-- The leftmost position matching a boundary alternative of the fallback
pattern (alternation order: the section boundary, then the end marker),
together with the length of the alternative matched there. -/
def findBoundary : List Char → Option (Nat × Nat)
  | [] => none
  | c :: cs =>
    if startsWithChars BOUNDARY1 (c :: cs) then some (0, BOUNDARY1.length)
    else if startsWithChars BOUNDARY2 (c :: cs) then some (0, BOUNDARY2.length)
    else (findBoundary cs).map (fun p => (p.1 + 1, p.2))

/-- The span located by the fallback pattern (line 49): the leftmost head
occurrence followed, across the lazy gap, by a section boundary; returns the
absolute boundary index and the boundary length. -/
def findSectionSpan (hd l : List Char) : Option (Nat × Nat) :=
  (findOcc hd l).bind fun i =>
    (findBoundary (l.drop (i + hd.length))).map
      fun p => (i + hd.length + p.1, p.2)

/-- `re.sub` of the placeholder pattern (lines 41-45): group one keeps the
text from the head through the pending status line, the pending content
marker is replaced by `ins`, and scanning resumes after the match. -/
def sub1 : Nat → List Char → List Char → List Char → List Char
  | 0, _, _, l => l
  | fuel + 1, hd, ins, l =>
    match findPlaceholder hd l with
    | none => l
    | some j =>
      l.take (j + STATUS_PENDING.length) ++ ins
        ++ sub1 fuel hd ins (l.drop (j + STATUS_PENDING.length + PENDING_TAIL.length))

/-- `re.sub` of the fallback pattern (lines 49-54): group one runs to the
boundary, `ins` is inserted before the kept boundary, and scanning resumes
after the boundary. -/
def sub2 : Nat → List Char → List Char → List Char → List Char
  | 0, _, _, l => l
  | fuel + 1, hd, ins, l =>
    match findSectionSpan hd l with
    | none => l
    | some (q, blen) =>
      l.take q ++ ins ++ (l.drop q).take blen
        ++ sub2 fuel hd ins (l.drop (q + blen))

/-- Embedding of `update_plan_section` (lines 18-72) on the document text:
the analysis file content is stripped (line 28), the placeholder substitution
runs first, and when it leaves the text unchanged (line 47) the fallback
substitution runs; the resulting text is written back and the call reports
success (line 61).

The replacement of line 44 is a `re.sub` string template into which the
analysis text is interpolated, so `re.sub` template-processes the analysis as
well: a backslash escape in it is expanded (a group reference such as a
backslash before the digit one expands to group one, a backslash before the
letter n to a newline), and an invalid escape or group reference raises
`re.error` — eagerly, even with zero matches — which line 70 turns into a
failure return without writing.  This embedding models the analysis texts
that contain no backslash: for those the template expansion inserts the
stripped analysis verbatim and cannot raise, and the fallback replacement of
line 52, being a function, inserts it verbatim as well.  The theorems about
this definition carry that restriction as a hypothesis. -/
def update_plan_section (content marker analysisRaw : String) : String × Bool :=
  (String.mk
    (if sub1 (content.data.length + 1) (headOf marker)
          (STATUS_COMPLETE ++ pyStrip analysisRaw.data) content.data == content.data
     then sub2 (content.data.length + 1) (headOf marker)
          (STATUS_COMPLETE ++ pyStrip analysisRaw.data) content.data
     else sub1 (content.data.length + 1) (headOf marker)
          (STATUS_COMPLETE ++ pyStrip analysisRaw.data) content.data),
   true)

/-- The exit code of the command line tool (lines 125-126). -/
def mainExitCode (content marker analysisRaw : String) : Nat :=
  if (update_plan_section content marker analysisRaw).2 then 0 else 1

theorem sub1_of_none (hd ins l : List Char)
    (h : findPlaceholder hd l = none) :
    ∀ fuel, sub1 fuel hd ins l = l := by
  intro fuel
  cases fuel with
  | zero => rfl
  | succ fuel => rw [sub1, h]

theorem sub2_of_none (hd ins l : List Char)
    (h : findSectionSpan hd l = none) :
    ∀ fuel, sub2 fuel hd ins l = l := by
  intro fuel
  cases fuel with
  | zero => rfl
  | succ fuel => rw [sub2, h]

theorem startsWithChars_length (pat : List Char) :
    ∀ l, startsWithChars pat l = true → pat.length ≤ l.length := by
  induction pat with
  | nil => intro l _; simp
  | cons p ps ih =>
    intro l h
    cases l with
    | nil => simp [startsWithChars] at h
    | cons c cs =>
      rw [startsWithChars, Bool.and_eq_true] at h
      simpa using Nat.succ_le_succ (ih cs h.2)

theorem findOcc_startsWith (pat : List Char) :
    ∀ (l : List Char) (i : Nat), findOcc pat l = some i →
      startsWithChars pat (l.drop i) = true := by
  intro l
  induction l with
  | nil =>
    intro i h
    cases pat with
    | nil => rfl
    | cons p ps =>
      unfold findOcc at h
      simp at h
  | cons c cs ih =>
    intro i h
    unfold findOcc at h
    by_cases hs : startsWithChars pat (c :: cs) = true
    · rw [if_pos hs] at h
      injection h with h
      rw [← h]
      exact hs
    · rw [if_neg hs] at h
      rcases h2 : findOcc pat cs with _ | i' <;> rw [h2] at h
      · simp at h
      · simp only [Option.map_some', Option.some.injEq] at h
        rw [← h, List.drop_succ_cons]
        exact ih i' h2

theorem findPlaceholder_bound (hd l : List Char) (j : Nat)
    (h : findPlaceholder hd l = some j) :
    j + STATUS_PENDING.length + PENDING_TAIL.length ≤ l.length := by
  unfold findPlaceholder at h
  rcases h1 : findOcc hd l with _ | i <;> rw [h1] at h
  · simp at h
  · rw [Option.some_bind] at h
    rcases h2 : findOcc (STATUS_PENDING ++ PENDING_TAIL) (l.drop (i + hd.length))
        with _ | j' <;> rw [h2] at h
    · simp at h
    · simp only [Option.map_some', Option.some.injEq] at h
      have hlen := startsWithChars_length _ _ (findOcc_startsWith _ _ _ h2)
      have hS1 : STATUS_PENDING.length = 27 := by decide
      have hS2 : PENDING_TAIL.length = 23 := by decide
      rw [List.length_drop, List.length_drop, List.length_append] at hlen
      omega

end UpdatePlan

namespace UpdatePlan

/-- C9 document with the exact placeholder present for the marker, followed by
further text. -/
def placeholderDoc : String :=
  "### Opus Analyst\n**Status:** ⏳ Analyzing...\n\n_Analysis pending..._\nTail"

/-- C9 document without the placeholder but with a section span ending at a
section boundary. -/
def fallbackDoc : String := "### Opus Analyst\nIntro\n---\n### Next steps"

end UpdatePlan

open Coordinator UpdatePlan in
/-- C9 counterexample: on a document consisting of exactly the placeholder
(heading line, pending-status line, pending-content marker) and a tail, the
patcher does not replace the placeholder with a completed-status line followed
by the content: it keeps the heading and the pending-status line and only
replaces the pending-content marker, so the pending-status line still occurs
in the result. -/
theorem patch_placeholder_counterexample :
    (update_plan_section placeholderDoc "Opus Analyst" "RESULT").1
      = "### Opus Analyst\n**Status:** ⏳ Analyzing...\n**Status:** ✅ Complete\n\nRESULT\nTail"
    ∧ occursIn STATUS_PENDING
        ((update_plan_section placeholderDoc "Opus Analyst" "RESULT").1).data = true := by
  refine ⟨by decide, by decide⟩

open Coordinator UpdatePlan in
/-- C9 (amended): when the document contains the exact placeholder bound to the
section marker, the patcher replaces the placeholder's pending-content marker
with a completed-status line followed by the stripped content — retaining the
heading and the original pending-status line — and returns success; when the
placeholder is absent but the section's span ends at a section boundary or the
designated end marker, it inserts a completed-status line and the content
immediately before that boundary.  The analysis text is required to contain
no backslash, so that the line-44 replacement template inserts it verbatim
instead of expanding escapes and group references or raising on an invalid
escape. -/
theorem patch_section_replacement (marker analysisRaw content content₂ : String)
    (j q blen : Nat)
    (_hsafe : '\\' ∉ analysisRaw.data)
    (hj : findPlaceholder (headOf marker) content.data = some j)
    (hrest : findPlaceholder (headOf marker)
        (content.data.drop (j + STATUS_PENDING.length + PENDING_TAIL.length)) = none)
    (hp₂ : findPlaceholder (headOf marker) content₂.data = none)
    (hq : findSectionSpan (headOf marker) content₂.data = some (q, blen))
    (hrest₂ : findSectionSpan (headOf marker) (content₂.data.drop (q + blen)) = none) :
    (update_plan_section content marker analysisRaw).1
        = String.mk (content.data.take (j + STATUS_PENDING.length)
            ++ STATUS_COMPLETE ++ pyStrip analysisRaw.data
            ++ content.data.drop (j + STATUS_PENDING.length + PENDING_TAIL.length))
    ∧ (update_plan_section content marker analysisRaw).2 = true
    ∧ (update_plan_section content₂ marker analysisRaw).1
        = String.mk (content₂.data.take q
            ++ STATUS_COMPLETE ++ pyStrip analysisRaw.data
            ++ (content₂.data.drop q).take blen
            ++ content₂.data.drop (q + blen)) := by
  have hbound := findPlaceholder_bound (headOf marker) content.data j hj
  have htake : (content.data.take (j + STATUS_PENDING.length)).length
      = j + STATUS_PENDING.length := by
    rw [List.length_take]
    omega
  have hsub1 : sub1 (content.data.length + 1) (headOf marker)
      (STATUS_COMPLETE ++ pyStrip analysisRaw.data) content.data
      = content.data.take (j + STATUS_PENDING.length)
        ++ (STATUS_COMPLETE ++ pyStrip analysisRaw.data)
        ++ content.data.drop (j + STATUS_PENDING.length + PENDING_TAIL.length) := by
    simp only [sub1, hj, sub1_of_none _ _ _ hrest]
  have hne : content.data.take (j + STATUS_PENDING.length)
        ++ (STATUS_COMPLETE ++ pyStrip analysisRaw.data)
        ++ content.data.drop (j + STATUS_PENDING.length + PENDING_TAIL.length)
      ≠ content.data := by
    intro he
    have hlen := congrArg List.length he
    have hgt : PENDING_TAIL.length < STATUS_COMPLETE.length := by decide
    simp only [List.length_append, htake, List.length_drop] at hlen
    omega
  have hbeq : (sub1 (content.data.length + 1) (headOf marker)
      (STATUS_COMPLETE ++ pyStrip analysisRaw.data) content.data
      == content.data) = false := by
    rw [hsub1]
    exact beq_eq_false_iff_ne.mpr hne
  refine ⟨?_, rfl, ?_⟩
  · unfold update_plan_section
    rw [hbeq]
    simp only [Bool.false_eq_true, if_false, hsub1]
    simp [List.append_assoc]
  · unfold update_plan_section
    rw [sub1_of_none _ _ _ hp₂]
    simp only [beq_self_eq_true, if_true]
    simp only [sub2, hq, sub2_of_none _ _ _ hrest₂]
    simp [List.append_assoc]

open Coordinator UpdatePlan in
/-- C9 witness: the replacement theorem applied to a concrete placeholder
document and a concrete fallback document. -/
theorem patch_section_replacement_witness :
    (update_plan_section placeholderDoc "Opus Analyst" " my analysis ").1
        = String.mk (placeholderDoc.data.take (16 + STATUS_PENDING.length)
            ++ STATUS_COMPLETE ++ pyStrip (" my analysis " : String).data
            ++ placeholderDoc.data.drop
                (16 + STATUS_PENDING.length + PENDING_TAIL.length))
    ∧ (update_plan_section placeholderDoc "Opus Analyst" " my analysis ").2 = true
    ∧ (update_plan_section fallbackDoc "Opus Analyst" " my analysis ").1
        = String.mk (fallbackDoc.data.take 22
            ++ STATUS_COMPLETE ++ pyStrip (" my analysis " : String).data
            ++ (fallbackDoc.data.drop 22).take 9
            ++ fallbackDoc.data.drop (22 + 9)) :=
  patch_section_replacement "Opus Analyst" " my analysis " placeholderDoc
    fallbackDoc 16 22 9 (by decide) (by decide) (by decide) (by decide)
    (by decide) (by decide)


open Coordinator UpdatePlan in
/-- C10: when the document contains neither the exact placeholder for the
section marker nor any section span ending at a boundary or end marker, the
patcher writes the document back byte for byte unchanged and still reports
success, so the command line tool exits with code 0.  The analysis text is
required to contain no backslash: the line-44 replacement template is
processed eagerly by `re.sub`, so an invalid backslash escape in the analysis
makes the call fail even when nothing matches, a failure mode outside this
model. -/
theorem patch_missing_section_noop (content marker analysisRaw : String)
    (_hsafe : '\\' ∉ analysisRaw.data)
    (h₁ : findPlaceholder (headOf marker) content.data = none)
    (h₂ : findSectionSpan (headOf marker) content.data = none) :
    update_plan_section content marker analysisRaw = (content, true)
    ∧ mainExitCode content marker analysisRaw = 0 := by
  have hfix : update_plan_section content marker analysisRaw = (content, true) := by
    unfold update_plan_section
    rw [sub1_of_none _ _ _ h₁, sub2_of_none _ _ _ h₂]
    simp
  exact ⟨hfix, by rw [mainExitCode, hfix]; rfl⟩

open Coordinator UpdatePlan in
/-- C10 witness: the no-op theorem applied to a document with no matching
section at all. -/
theorem patch_missing_section_noop_witness :
    update_plan_section "no sections here" "Opus Analyst" "RESULT"
        = ("no sections here", true)
    ∧ mainExitCode "no sections here" "Opus Analyst" "RESULT" = 0 :=
  patch_missing_section_noop "no sections here" "Opus Analyst" "RESULT"
    (by decide) (by decide) (by decide)

